import Mathlib

/-!
Shallow embedding of `src/src/galois/_fields/_gf2.py`: GF(2) scalar arithmetic
(`UFuncMixin_2_1`), the bit-packed array class `GF2BP` with its dynamic
`_unpacked_shape` attribute, and the packed matrix multiply
(`matmul_ufunc_bitpacked`).

Physical storage is modelled as lists of natural numbers (the uint8 bytes that
numpy's `packbits` produces).  `np.packbits` / `np.unpackbits` pack eight bits
per byte, most significant bit first, padding the final byte of each row with
trailing zero bits.
-/

namespace GF2Spec

/-- Error kinds surfaced by the GF(2) operations; each corresponds to a Python
exception raised in the source (`ZeroDivisionError`, `ArithmeticError`,
`AssertionError`, the framework's validation error, the not-implemented
fallback for unsupported casts, and the `NotImplementedError` that
`GF2BP.__new__` raises on non-ndarray inputs, lines 340-344). -/
inductive GFErr where
  | DivisionByZero
  | UndefinedLogarithm
  | InvalidGenerator
  | ValidationError
  | UnsupportedCast
  | AssertionFailed
  | NotImplementedErr
deriving DecidableEq, Repr

/-! ## Scalar arithmetic of `UFuncMixin_2_1` (lines 27-103) -/

/-- Line 95: `cls._add = add_ufunc(cls, override=np.bitwise_xor)`. -/
def add_gf2 (a b : Nat) : Nat := a ^^^ b

/-- Line 96: `cls._negative = negative_ufunc(cls, override=np.positive)` —
numpy's `positive` returns the value unchanged. -/
def negative_gf2 (a : Nat) : Nat := a

/-- Line 97: `cls._subtract = subtract_ufunc(cls, override=np.bitwise_xor)`. -/
def subtract_gf2 (a b : Nat) : Nat := a ^^^ b

/-- Line 98: `cls._multiply = multiply_ufunc(cls, override=np.bitwise_and)`. -/
def multiply_gf2 (a b : Nat) : Nat := a &&& b

/-- Lines 32-36: `reciprocal.calculate` raises `ZeroDivisionError` on 0,
otherwise returns 1. -/
def reciprocal_gf2 (a : Nat) : Except GFErr Nat :=
  if a = 0 then .error .DivisionByZero else .ok 1

/-- Lines 44-48: `divide.calculate` raises `ZeroDivisionError` when `b == 0`,
otherwise returns `a & b`. -/
def divide_gf2 (a b : Nat) : Except GFErr Nat :=
  if b = 0 then .error .DivisionByZero else .ok (a &&& b)

/-- Lines 56-62: `power.calculate` raises `ZeroDivisionError` when `a == 0`
and `b < 0`; returns 1 when `b == 0`, else `a`.  The exponent may be a
negative integer, hence `Int`. -/
def power_gf2 (a : Nat) (b : Int) : Except GFErr Nat :=
  if a = 0 ∧ b < 0 then .error .DivisionByZero
  else if b = 0 then .ok 1
  else .ok a

/-- Lines 70-76: `log.calculate` raises on `a == 0` (undefined logarithm) and
on `b != 1` (invalid generator), in that order; otherwise returns 0. -/
def log_gf2 (a b : Nat) : Except GFErr Nat :=
  if a = 0 then .error .UndefinedLogarithm
  else if b ≠ 1 then .error .InvalidGenerator
  else .ok 0

/-- Lines 84-85: `sqrt.implementation` returns `a.copy()` — the identity on
values. -/
def sqrt_gf2 (a : Nat) : Nat := a

/-! ## Bit packing primitives (numpy `packbits` / `unpackbits`, MSB first) -/

/-- Number of bytes needed for `n` bits. -/
def ceil8 (n : Nat) : Nat := (n + 7) / 8

/-- Number of zero padding bits `packbits` appends to a row of `n` bits. -/
def padLen (n : Nat) : Nat := (8 - n % 8) % 8

/-- A row of bits extended with the trailing zero padding `packbits` adds. -/
def padTo8 (bits : List Nat) : List Nat := bits ++ List.replicate (padLen bits.length) 0

/-- One byte from eight bits, most significant bit first. -/
def bitsToByte (bits : List Nat) : Nat := bits.foldl (fun acc b => 2 * acc + b) 0

/-- The eight bits of a byte, most significant bit first (numpy `unpackbits`
order for one uint8 value). -/
def byteToBits (n : Nat) : List Nat :=
  [n / 128 % 2, n / 64 % 2, n / 32 % 2, n / 16 % 2, n / 8 % 2, n / 4 % 2, n / 2 % 2, n % 2]

/-- Split a list whose length is a multiple of eight into its groups of eight.
The input is always padded with `padTo8` first, so the catch-all case (a
leftover of fewer than eight bits) is never reached on the call sites. -/
def chunks8 : List Nat → List (List Nat)
  | b0 :: b1 :: b2 :: b3 :: b4 :: b5 :: b6 :: b7 :: rest =>
      [b0, b1, b2, b3, b4, b5, b6, b7] :: chunks8 rest
  | _ => []

/-- numpy `packbits` applied to one row: pad to a multiple of eight bits, then
emit one byte per group of eight, MSB first. -/
def packbitsRow (bits : List Nat) : List Nat := (chunks8 (padTo8 bits)).map bitsToByte

/-- numpy `unpackbits` applied to one row of bytes, without a `count`: every
byte expands to its eight bits. -/
def unpackRow (bytes : List Nat) : List Nat := (bytes.map byteToBits).flatten

/-- numpy `bitwise_count` on a uint8 value: its number of set bits. -/
def popcount (n : Nat) : Nat := (byteToBits n).sum

/-- `np.bitwise_xor.reduce` along an axis (XOR is associative and commutative,
so the fold order is immaterial; the reduction of an empty axis is 0). -/
def xorReduce (l : List Nat) : Nat := l.foldr (fun a b => a ^^^ b) 0

/-! ## Arrays

A numpy array of rank 1 or 2.  A rank-2 array carries its column count
explicitly (a list of rows loses it when there are zero rows, while a numpy
shape does not).  Well-formed rank-2 values have every row of length `ncols`.
-/

inductive NDArr where
  | d1 (data : List Nat)
  | d2 (rows : List (List Nat)) (ncols : Nat)
deriving DecidableEq, Repr

/-- The numpy `shape` tuple. -/
def shapeOf : NDArr → List Nat
  | .d1 l => [l.length]
  | .d2 rows ncols => [rows.length, ncols]

/-- `shape[-1]`. -/
def lastDim (s : List Nat) : Nat := s.getLastD 0

/-- `shape[0]`. -/
def headDim (s : List Nat) : Nat := s.headD 0

/-- `np.packbits(x, axis=-1)`: pack each last-axis row. -/
def pack_lastaxis : NDArr → NDArr
  | .d1 l => .d1 (packbitsRow l)
  | .d2 rows ncols => .d2 (rows.map packbitsRow) (ceil8 ncols)

/-- `np.unpackbits(x, axis=-1, count=count)`: unpack each last-axis row and
keep the first `count` bits. -/
def unpackbits_lastaxis : NDArr → Nat → NDArr
  | .d1 l, count => .d1 ((unpackRow l).take count)
  | .d2 rows _, count => .d2 (rows.map (fun r => (unpackRow r).take count)) count

/-- Column `i` of a rank-2 array given as rows (`x[:, i]`). -/
def colI (rows : List (List Nat)) (i : Nat) : List Nat := rows.map (fun r => r.getD i 0)

/-- `np.packbits(x, axis=0)`: pack down the first axis.  Entry `(j, i)` of the
result is byte `j` of column `i` packed MSB first. -/
def packbits_axis0 : NDArr → NDArr
  | .d1 l => .d1 (packbitsRow l)
  | .d2 rows ncols =>
      .d2 ((List.range (ceil8 rows.length)).map (fun j =>
            (List.range ncols).map (fun i => (packbitsRow (colI rows i)).getD j 0))) ncols

/-- A `GF2BP` instance: the packed physical buffer plus the dynamic
`_unpacked_shape` attribute.  The attribute is set by dynamic assignment in
the source (lines 113, 124, 135, 146, 169, 187, 335), so it can be absent on
arrays produced by code paths that do not assign it; `none` models absence. -/
structure GF2BPArr where
  phys : NDArr
  ushape : Option (List Nat)
deriving DecidableEq, Repr

/-- Lines 330-338, the core of `GF2BP.__new__` after element validation:
pack along the last axis and attach `_unpacked_shape = x.shape`. -/
def GF2BP_pack (x : NDArr) : GF2BPArr := ⟨pack_lastaxis x, some (shapeOf x)⟩

/-- Lines 346-354, `GF2BP.astype(GF2)`: unpack along the last axis with
`count = self._unpacked_shape[-1]`. -/
def GF2BP_astype_GF2 (r : GF2BPArr) : NDArr :=
  unpackbits_lastaxis r.phys (lastDim (r.ushape.getD []))

/-! ## Element validation and construction

Modelled from the spec: `_verify_array_like_types_and_values` (line 333) lives
in the framework's `FieldArray` base class, which is not under `src/`.  Per
spec sections 6 and 7 it verifies that every element lies in `{0, ..., order-1}`
(here `{0, 1}`), raising a validation error otherwise, and never clamps or
coerces values.
-/

/-- Modelled from the spec: framework element validation for a flat sequence —
succeed with the values unchanged when all lie in `{0,1}`, otherwise raise
`ValidationError`. -/
def verifyList (x : List Nat) : Except GFErr (List Nat) :=
  if x.all (fun b => decide (b < 2)) then .ok x else .error .ValidationError

/-- Modelled from the spec: framework element validation on an array. -/
def verifyND (x : NDArr) : Except GFErr NDArr :=
  match x with
  | .d1 l => (verifyList l).map .d1
  | .d2 rows n =>
      if rows.all (fun r => r.all (fun b => decide (b < 2))) then .ok (.d2 rows n)
      else .error .ValidationError

/-- A value passed to an array constructor: either a numpy ndarray, or some
other array-like input such as a nested Python list of integers, carrying the
same logical content.  `GF2BP.__new__` branches on `isinstance(x, np.ndarray)`
(line 330). -/
inductive ArrayLike where
  | ndarray (x : NDArr)
  | nested (x : NDArr)
deriving DecidableEq, Repr

/-- `GF2` construction: modelled from the spec (`FieldArray.__new__` is not
under `src/`) — per spec section 6 the unpacked constructor accepts nested
sequences as well as ndarrays, validating every element and storing the
values unchanged. -/
def GF2_new (x : ArrayLike) : Except GFErr NDArr :=
  match x with
  | .ndarray a => verifyND a
  | .nested a => verifyND a

/-- Lines 322-344, `GF2BP.__new__`: on an ndarray input, validate the
elements, pack along the last axis and attach `_unpacked_shape` (lines
330-338); on any other input — a nested Python list included — raise
`NotImplementedError` (lines 340-344), whose message directs users to build a
`GF2` array and convert it with `.astype(GF2BP)`. -/
def GF2BP_new (x : ArrayLike) : Except GFErr GF2BPArr :=
  match x with
  | .ndarray a => (verifyND a).map GF2BP_pack
  | .nested _ => .error .NotImplementedErr

/-! ## Bit-packed ufunc dispatchers (lines 106-218) -/

/-- Elementwise combination of two same-shape arrays.  (numpy broadcasting of
differently shaped operands is outside the modelled fragment; the claims'
inputs are same-shape.) -/
def ndZipWith (f : Nat → Nat → Nat) : NDArr → NDArr → NDArr
  | .d1 x, .d1 y => .d1 (List.zipWith f x y)
  | .d2 x n, .d2 y _ => .d2 (List.zipWith (List.zipWith f) x y) n
  | x, _ => x

/-- Elementwise map over an array. -/
def ndMap (f : Nat → Nat) : NDArr → NDArr
  | .d1 x => .d1 (x.map f)
  | .d2 x n => .d2 (x.map (fun r => r.map f)) n

/-- Modelled from the spec: a base binary ufunc dispatcher from
`_domains/_lookup` (not under `src/`) applied to packed operands.  It
produces a fresh output array; the base classes know nothing of the dynamic
`_unpacked_shape` attribute, so it is absent (`none`) on their outputs — the
`*_bitpacked` subclasses of lines 106-147 exist precisely to re-attach it. -/
def base_ufunc2_call (f : Nat → Nat → Nat) (a b : GF2BPArr) : GF2BPArr :=
  ⟨ndZipWith f a.phys b.phys, none⟩

/-- Modelled from the spec: a base unary ufunc dispatcher applied to a packed
operand; as with `base_ufunc2_call`, the output carries no
`_unpacked_shape`. -/
def base_ufunc1_call (g : NDArr → NDArr) (a : GF2BPArr) : GF2BPArr :=
  ⟨g a.phys, none⟩

/-- Lines 106-114, `add_ufunc_bitpacked.__call__`: run the base ufunc
(bytewise XOR, per `override=np.bitwise_xor` on line 203), then set
`output._unpacked_shape = inputs[0]._unpacked_shape`. -/
def add_ufunc_bitpacked_call (a b : GF2BPArr) : GF2BPArr :=
  let output := base_ufunc2_call (fun u v => u ^^^ v) a b
  ⟨output.phys, a.ushape⟩

/-- Lines 117-125, `subtract_ufunc_bitpacked.__call__` (bytewise XOR, line
205), propagating `inputs[0]._unpacked_shape`. -/
def subtract_ufunc_bitpacked_call (a b : GF2BPArr) : GF2BPArr :=
  let output := base_ufunc2_call (fun u v => u ^^^ v) a b
  ⟨output.phys, a.ushape⟩

/-- Lines 128-136, `multiply_ufunc_bitpacked.__call__` (bytewise AND, line
206), propagating `inputs[0]._unpacked_shape`. -/
def multiply_ufunc_bitpacked_call (a b : GF2BPArr) : GF2BPArr :=
  let output := base_ufunc2_call (fun u v => u &&& v) a b
  ⟨output.phys, a.ushape⟩

/-- Line 204: `cls._negative = negative_ufunc(cls, override=np.positive)` —
the *plain* dispatcher, not a `*_bitpacked` subclass, so the output of
negation on a packed array carries no `_unpacked_shape`. -/
def negative_ufunc_bp_call (a : GF2BPArr) : GF2BPArr :=
  base_ufunc1_call (ndMap (fun v => v)) a

/-- Line 211: `cls._sqrt = sqrt(cls)` — the plain GF(2) sqrt dispatcher
(`a.copy()`), not a `*_bitpacked` subclass, so its output carries no
`_unpacked_shape`. -/
def sqrt_ufunc_bp_call (a : GF2BPArr) : GF2BPArr :=
  base_ufunc1_call (ndMap sqrt_gf2) a

/-! ## Packed matrix multiply (lines 150-189) -/

/-- An operand reaching `matmul_ufunc_bitpacked.__call__`: either a `GF2BP`
instance or some other (unpacked) array. -/
inductive MMOperand where
  | packed (x : GF2BPArr)
  | unpacked (x : NDArr)
deriving DecidableEq, Repr

/-- Lines 160-189 of `matmul_ufunc_bitpacked.__call__`, after the isinstance
assert: repack the second operand down axis 0, assert
`a.shape[-1] == b.shape[0]` (physical byte shapes — a failed `assert` is
`AssertionFailed`), then either XOR-reduce the unpacked bitwise AND (vector
case) or popcount-and-reduce-mod-2 column by column (matrix case), and pack
the result along the last axis with `_unpacked_shape = final_shape`.
The spec (section 4.3) fixes the first operand's logical shape to `[M, N]`,
so a rank-1 first operand is outside the modelled interface and mapped to the
assertion failure branch.  The repack step is split out into `matmul_core`
below; this function is the remainder of the body, taking the already
repacked second operand `b'`. -/
def matmul_checked (a : GF2BPArr) (b' : NDArr) : Except GFErr GF2BPArr :=
  if lastDim (shapeOf a.phys) = headDim (shapeOf b') then
    match a.phys, b' with
    | .d2 arows _, .d1 bv =>
        .ok ⟨pack_lastaxis (.d1 (arows.map (fun ar =>
            xorReduce (unpackRow (List.zipWith (fun u v => u &&& v) ar bv))))),
          some [(shapeOf a.phys).headD 0]⟩
    | .d2 arows _, .d2 brows p =>
        .ok ⟨pack_lastaxis (.d2 (arows.map (fun ar =>
            (List.range p).map (fun i =>
              xorReduce ((List.zipWith (fun u v => u &&& v) ar (colI brows i)).map popcount) % 2))) p),
          some [(shapeOf a.phys).headD 0, p]⟩
    | _, _ => .error .AssertionFailed
  else .error .AssertionFailed

/-- Lines 160-189 put together: repack the second operand, then run the
checked multiply above. -/
def matmul_core (a b : GF2BPArr) : Except GFErr GF2BPArr :=
  matmul_checked a (packbits_axis0 (unpackbits_lastaxis b.phys (lastDim (b.ushape.getD []))))

/-- Lines 155-189, `matmul_ufunc_bitpacked.__call__`: line 158 asserts
`isinstance(a, GF2BP) and isinstance(b, GF2BP)` before anything else; no
conversion of unpacked operands ever happens. -/
def matmul_ufunc_bitpacked : MMOperand → MMOperand → Except GFErr GF2BPArr
  | .packed a, .packed b => matmul_core a b
  | _, _ => .error .AssertionFailed

/-! ## Casting (lines 271-275 and 346-356) -/

/-- The target types a cast can name. -/
inductive GFType where
  | GF2T
  | GF2BPT
  | OtherT
deriving DecidableEq, Repr

/-- Lines 346-356, `GF2BP.astype`: casting to `GF2` unpacks (with truncation
to `_unpacked_shape[-1]`); every other target falls to `super().astype`.
Modelled from the spec: the `FieldArray.astype` fallback is not under `src/`;
per spec sections 4.4 and 6, any other target on the packed type fails with an
explicit not-implemented condition (`UnsupportedCast`). -/
def GF2BP_astype (r : GF2BPArr) (t : GFType) : Except GFErr NDArr :=
  match t with
  | .GF2T => .ok (GF2BP_astype_GF2 r)
  | _ => .error .UnsupportedCast

/-! ## Reference definitions (the spec's wording, for the refinement claims)

These follow the claims' words — "the conventional integer matrix product of
A and B reduced modulo 2" — and are compared against the packed
implementation above.
-/

/-- Reference: conventional integer dot product. -/
def intDot (x y : List Nat) : Nat := (List.zipWith (fun a b => a * b) x y).sum

/-- Reference: conventional integer matrix-vector product reduced mod 2. -/
def intMatVecMod2 (A : List (List Nat)) (v : List Nat) : List Nat :=
  A.map (fun r => intDot r v % 2)

/-- Reference: conventional integer matrix-matrix product reduced mod 2
(`B` given as rows, `p` its column count). -/
def intMatMatMod2 (A B : List (List Nat)) (p : Nat) : List (List Nat) :=
  A.map (fun r => (List.range p).map (fun i => intDot r (colI B i) % 2))

/-! ## Lemmas: bytes and bits -/

theorem byteToBits_length (n : Nat) : (byteToBits n).length = 8 := by
  simp [byteToBits]

theorem byteToBits_mem_lt (n : Nat) : ∀ b ∈ byteToBits n, b < 2 := by
  intro b hb
  simp only [byteToBits, List.mem_cons, List.not_mem_nil, or_false] at hb
  rcases hb with h | h | h | h | h | h | h | h <;> subst h <;> exact Nat.mod_lt _ (by omega)

theorem byteToBits_bitsToByte (b0 b1 b2 b3 b4 b5 b6 b7 : Nat)
    (h0 : b0 < 2) (h1 : b1 < 2) (h2 : b2 < 2) (h3 : b3 < 2)
    (h4 : b4 < 2) (h5 : b5 < 2) (h6 : b6 < 2) (h7 : b7 < 2) :
    byteToBits (bitsToByte [b0, b1, b2, b3, b4, b5, b6, b7]) = [b0, b1, b2, b3, b4, b5, b6, b7] := by
  simp only [bitsToByte, byteToBits, List.foldl_cons, List.foldl_nil, List.cons.injEq, and_true]
  refine ⟨?_, ?_, ?_, ?_, ?_, ?_, ?_, ?_⟩ <;> omega

theorem div_pow_mod_two (n k : Nat) : n / 2 ^ k % 2 = (n.testBit k).toNat := by
  rcases Nat.mod_two_eq_zero_or_one (n / 2 ^ k) with h | h <;>
    simp [Nat.testBit_to_div_mod, h]

theorem land_div_mod (x y k : Nat) :
    (x &&& y) / 2 ^ k % 2 = x / 2 ^ k % 2 * (y / 2 ^ k % 2) := by
  rw [div_pow_mod_two, div_pow_mod_two, div_pow_mod_two, Nat.testBit_land]
  cases x.testBit k <;> cases y.testBit k <;> simp

theorem byteToBits_land (x y : Nat) :
    byteToBits (x &&& y) = List.zipWith (fun a b => a * b) (byteToBits x) (byteToBits y) := by
  have h7 := land_div_mod x y 7
  have h6 := land_div_mod x y 6
  have h5 := land_div_mod x y 5
  have h4 := land_div_mod x y 4
  have h3 := land_div_mod x y 3
  have h2 := land_div_mod x y 2
  have h1 := land_div_mod x y 1
  have h0 := land_div_mod x y 0
  norm_num at h7 h6 h5 h4 h3 h2 h1 h0
  simp only [byteToBits, List.zipWith_cons_cons, List.zipWith_nil_right]
  exact congrArg₂ _ h7 (congrArg₂ _ h6 (congrArg₂ _ h5 (congrArg₂ _ h4
    (congrArg₂ _ h3 (congrArg₂ _ h2 (congrArg₂ _ h1 (by rw [h0])))))))

theorem xor_mod_two (a b : Nat) : (a ^^^ b) % 2 = (a + b) % 2 := by
  simp [Nat.xor_mod_two_eq, Nat.add_mod]

theorem xorReduce_mod_two (l : List Nat) : xorReduce l % 2 = l.sum % 2 := by
  induction l with
  | nil => rfl
  | cons a l ih =>
      have h := xor_mod_two a (xorReduce l)
      have hstep : xorReduce (a :: l) = a ^^^ xorReduce l := rfl
      rw [hstep, List.sum_cons]
      omega

theorem xorReduce_lt_two (l : List Nat) (h : ∀ b ∈ l, b < 2) : xorReduce l < 2 := by
  induction l with
  | nil => simp [xorReduce]
  | cons a l ih =>
      have ha : a < 2 := h a (by simp)
      have hl : xorReduce l < 2 := ih (fun b hb => h b (by simp [hb]))
      simp only [xorReduce, List.foldr_cons] at hl ⊢
      interval_cases a <;> interval_cases hx : (List.foldr (fun a b => a ^^^ b) 0 l) <;> simp

theorem xorReduce_eq_sum_mod (l : List Nat) (h : ∀ b ∈ l, b < 2) :
    xorReduce l = l.sum % 2 := by
  have h1 := xorReduce_mod_two l
  have h2 := xorReduce_lt_two l h
  omega

/-! ## Lemmas: packing one row -/

theorem padTo8_length (l : List Nat) : (padTo8 l).length = 8 * ceil8 l.length := by
  simp only [padTo8, List.length_append, List.length_replicate, padLen, ceil8]
  omega

theorem padTo8_length_mod (l : List Nat) : (padTo8 l).length % 8 = 0 := by
  rw [padTo8_length]; omega

theorem padTo8_mem_lt (l : List Nat) (h : ∀ b ∈ l, b < 2) : ∀ b ∈ padTo8 l, b < 2 := by
  intro b hb
  rcases List.mem_append.mp hb with h1 | h1
  · exact h b h1
  · have := List.eq_of_mem_replicate h1
    omega

theorem unpackRow_nil : unpackRow [] = [] := rfl

theorem unpackRow_cons (x : Nat) (xs : List Nat) :
    unpackRow (x :: xs) = byteToBits x ++ unpackRow xs := by
  simp [unpackRow]

theorem unpackRow_mem_lt (l : List Nat) : ∀ b ∈ unpackRow l, b < 2 := by
  intro b hb
  simp only [unpackRow, List.mem_flatten, List.mem_map] at hb
  obtain ⟨s, ⟨x, _, hx⟩, hbs⟩ := hb
  exact byteToBits_mem_lt x b (hx ▸ hbs)

theorem unpack_chunks (l : List Nat) (h8 : l.length % 8 = 0) (hb : ∀ b ∈ l, b < 2) :
    unpackRow ((chunks8 l).map bitsToByte) = l := by
  induction l using chunks8.induct with
  | case1 b0 b1 b2 b3 b4 b5 b6 b7 rest ih =>
      rw [chunks8]
      simp only [List.map_cons, unpackRow_cons]
      rw [byteToBits_bitsToByte b0 b1 b2 b3 b4 b5 b6 b7
        (hb _ (by simp)) (hb _ (by simp)) (hb _ (by simp)) (hb _ (by simp))
        (hb _ (by simp)) (hb _ (by simp)) (hb _ (by simp)) (hb _ (by simp))]
      rw [ih (by simp at h8 ⊢; omega) (fun b hbm => hb b (by simp [hbm]))]
      simp
  | case2 l hne =>
      match l, hne with
      | [], _ => rfl
      | [b0], h => simp at h8
      | [b0, b1], h => simp at h8
      | [b0, b1, b2], h => simp at h8
      | [b0, b1, b2, b3], h => simp at h8
      | [b0, b1, b2, b3, b4], h => simp at h8
      | [b0, b1, b2, b3, b4, b5], h => simp at h8
      | [b0, b1, b2, b3, b4, b5, b6], h => simp at h8
      | b0 :: b1 :: b2 :: b3 :: b4 :: b5 :: b6 :: b7 :: rest, h =>
          exact absurd rfl (h b0 b1 b2 b3 b4 b5 b6 b7 rest)

theorem unpackRow_packbitsRow (x : List Nat) (hb : ∀ b ∈ x, b < 2) :
    unpackRow (packbitsRow x) = padTo8 x := by
  exact unpack_chunks (padTo8 x) (padTo8_length_mod x) (padTo8_mem_lt x hb)

theorem take_unpackRow_packbitsRow (x : List Nat) (hb : ∀ b ∈ x, b < 2) :
    (unpackRow (packbitsRow x)).take x.length = x := by
  rw [unpackRow_packbitsRow x hb, padTo8]
  exact List.take_left x _

theorem chunks8_length (l : List Nat) (h8 : l.length % 8 = 0) :
    (chunks8 l).length = l.length / 8 := by
  induction l using chunks8.induct with
  | case1 b0 b1 b2 b3 b4 b5 b6 b7 rest ih =>
      rw [chunks8]
      simp only [List.length_cons] at *
      rw [ih (by omega)]
      omega
  | case2 l hne =>
      match l, hne with
      | [], _ => rfl
      | [b0], h => simp at h8
      | [b0, b1], h => simp at h8
      | [b0, b1, b2], h => simp at h8
      | [b0, b1, b2, b3], h => simp at h8
      | [b0, b1, b2, b3, b4], h => simp at h8
      | [b0, b1, b2, b3, b4, b5], h => simp at h8
      | [b0, b1, b2, b3, b4, b5, b6], h => simp at h8
      | b0 :: b1 :: b2 :: b3 :: b4 :: b5 :: b6 :: b7 :: rest, h =>
          exact absurd rfl (h b0 b1 b2 b3 b4 b5 b6 b7 rest)

theorem packbitsRow_length (x : List Nat) : (packbitsRow x).length = ceil8 x.length := by
  simp only [packbitsRow, List.length_map]
  rw [chunks8_length _ (padTo8_length_mod x), padTo8_length]
  omega

/-! ## Lemmas: bitwise AND of packed rows against the integer dot product -/

theorem unpackRow_zipWith_land (bs cs : List Nat) :
    unpackRow (List.zipWith (fun u v => u &&& v) bs cs)
      = List.zipWith (fun a b => a * b) (unpackRow bs) (unpackRow cs) := by
  induction bs generalizing cs with
  | nil => simp [unpackRow]
  | cons b bs ih =>
      cases cs with
      | nil => simp [unpackRow]
      | cons c cs =>
          rw [List.zipWith_cons_cons, unpackRow_cons, unpackRow_cons, unpackRow_cons,
            List.zipWith_append _ _ _ _ _ (by rw [byteToBits_length, byteToBits_length]),
            byteToBits_land, ih]

theorem zipWith_mul_replicate_zero (n m : Nat) :
    List.zipWith (fun a b => a * b) (List.replicate n 0) (List.replicate m (0 : Nat))
      = List.replicate (min n m) 0 := by
  rw [List.zipWith_replicate, Nat.mul_zero]

theorem zipWith_mul_padTo8_sum (x y : List Nat) (hlen : x.length = y.length) :
    (List.zipWith (fun a b => a * b) (padTo8 x) (padTo8 y)).sum = intDot x y := by
  unfold padTo8 intDot
  rw [List.zipWith_append _ _ _ _ _ hlen, List.sum_append, List.zipWith_replicate]
  simp

theorem zipWith_mul_mem_lt (x y : List Nat) (hx : ∀ b ∈ x, b < 2) (hy : ∀ b ∈ y, b < 2) :
    ∀ b ∈ List.zipWith (fun a b => a * b) x y, b < 2 := by
  induction x generalizing y with
  | nil => simp
  | cons a x ih =>
      cases y with
      | nil => simp
      | cons c y =>
          intro b hb
          rw [List.zipWith_cons_cons, List.mem_cons] at hb
          rcases hb with h | h
          · have ha : a < 2 := hx a (by simp)
            have hc : c < 2 := hy c (by simp)
            subst h
            have := Nat.mul_le_mul (Nat.lt_succ_iff.mp ha) (Nat.lt_succ_iff.mp hc)
            omega
          · exact ih y (fun b hb => hx b (by simp [hb])) (fun b hb => hy b (by simp [hb])) b h

/-- The vector-case reduction of the packed matmul: XOR-reduce the unpacked
bits of the bytewise AND of two packed rows.  It equals the integer dot
product mod 2. -/
theorem vec_entry_eq (x y : List Nat) (hlen : x.length = y.length)
    (hx : ∀ b ∈ x, b < 2) (hy : ∀ b ∈ y, b < 2) :
    xorReduce (unpackRow (List.zipWith (fun u v => u &&& v) (packbitsRow x) (packbitsRow y)))
      = intDot x y % 2 := by
  rw [unpackRow_zipWith_land, unpackRow_packbitsRow x hx, unpackRow_packbitsRow y hy]
  rw [xorReduce_eq_sum_mod _ (zipWith_mul_mem_lt _ _ (padTo8_mem_lt x hx) (padTo8_mem_lt y hy))]
  rw [zipWith_mul_padTo8_sum x y hlen]

theorem sum_map_popcount (bytes : List Nat) :
    (bytes.map popcount).sum = (unpackRow bytes).sum := by
  unfold unpackRow popcount
  rw [List.sum_flatten, List.map_map]
  rfl

/-- The matrix-case reduction of the packed matmul: XOR-reduce the popcounts
of the bytewise AND of two packed rows, then reduce mod 2.  It also equals
the integer dot product mod 2. -/
theorem mat_entry_eq (x y : List Nat) (hlen : x.length = y.length)
    (hx : ∀ b ∈ x, b < 2) (hy : ∀ b ∈ y, b < 2) :
    xorReduce ((List.zipWith (fun u v => u &&& v) (packbitsRow x) (packbitsRow y)).map popcount) % 2
      = intDot x y % 2 := by
  rw [xorReduce_mod_two, sum_map_popcount, unpackRow_zipWith_land,
    unpackRow_packbitsRow x hx, unpackRow_packbitsRow y hy,
    zipWith_mul_padTo8_sum x y hlen]

/-! ## Lemmas: indexing maps over ranges -/

theorem getD_range_map {α : Type} (f : Nat → α) (n i : Nat) (d : α) (h : i < n) :
    ((List.range n).map f).getD i d = f i := by
  rw [List.getD_eq_getElem?_getD, List.getElem?_map, List.getElem?_range h]
  rfl

theorem range_map_getD {α : Type} (l : List α) (n : Nat) (d : α) (h : l.length = n) :
    (List.range n).map (fun j => l.getD j d) = l := by
  apply List.ext_getElem (by simp [h])
  intro i h1 h2
  rw [List.getElem_map, List.getElem_range, List.getD_eq_getElem?_getD,
    List.getElem?_eq_getElem h2]
  rfl

theorem colI_length (rows : List (List Nat)) (i : Nat) : (colI rows i).length = rows.length := by
  simp [colI]

theorem colI_getD_mem_lt (rows : List (List Nat))
    (hb : ∀ r ∈ rows, ∀ b ∈ r, b < 2) (i : Nat) : ∀ b ∈ colI rows i, b < 2 := by
  intro b hbm
  simp only [colI, List.mem_map] at hbm
  obtain ⟨r, hr, hrb⟩ := hbm
  rw [List.getD_eq_getElem?_getD] at hrb
  rcases h : r[i]? with _ | v
  · rw [h] at hrb; simp at hrb; omega
  · rw [h] at hrb
    have hv := hb r hr v (List.getElem?_mem h)
    simp at hrb
    omega

/-! ## Lemmas: shape accessors and row-wise round trips -/

theorem lastDim_single (x : Nat) : lastDim [x] = x := rfl

theorem lastDim_pair (x y : Nat) : lastDim [x, y] = y := rfl

theorem headDim_cons (x : Nat) (s : List Nat) : headDim (x :: s) = x := rfl

theorem map_unpack_pack (rows : List (List Nat)) (n : Nat)
    (hlen : ∀ r ∈ rows, r.length = n) (hb : ∀ r ∈ rows, ∀ b ∈ r, b < 2) :
    (rows.map packbitsRow).map (fun r => (unpackRow r).take n) = rows := by
  rw [List.map_map]
  have h := List.map_congr_left (l := rows)
    (f := (fun r => (unpackRow r).take n) ∘ packbitsRow) (g := id)
    (fun r hr => by
      simp only [Function.comp_apply, id_eq]
      rw [← hlen r hr]
      exact take_unpackRow_packbitsRow r (hb r hr))
  rw [h, List.map_id]

/-- Repacking a rank-2 bit array down axis 0 packs each of its columns. -/
theorem colI_packbits_axis0 (B : List (List Nat)) (P i : Nat) (hi : i < P) :
    colI ((List.range (ceil8 B.length)).map (fun j =>
      (List.range P).map (fun i' => (packbitsRow (colI B i')).getD j 0))) i
      = packbitsRow (colI B i) := by
  unfold colI
  rw [List.map_map]
  have h1 : ∀ j,
      (((List.range P).map (fun i' => (packbitsRow (colI B i')).getD j 0)).getD i 0)
        = (packbitsRow (colI B i)).getD j 0 := fun j =>
    getD_range_map (fun i' => (packbitsRow (colI B i')).getD j 0) P i 0 hi
  calc (List.range (ceil8 B.length)).map
          ((fun r => r.getD i 0) ∘ fun j => (List.range P).map fun i' => (packbitsRow (colI B i')).getD j 0)
      = (List.range (ceil8 B.length)).map (fun j => (packbitsRow (colI B i)).getD j 0) := by
        exact List.map_congr_left (fun j _ => h1 j)
    _ = packbitsRow (colI B i) := by
        apply range_map_getD
        rw [packbitsRow_length, colI_length]

/-- The packed matrix multiply, vector case: `pack(A) @ pack(v)` succeeds and
returns the packed reference product with `_unpacked_shape = (M,)`. -/
theorem matmul_core_vec (A : List (List Nat)) (N : Nat) (v : List Nat)
    (hA : ∀ r ∈ A, r.length = N) (hAb : ∀ r ∈ A, ∀ b ∈ r, b < 2)
    (hv : v.length = N) (hvb : ∀ b ∈ v, b < 2) :
    matmul_core (GF2BP_pack (.d2 A N)) (GF2BP_pack (.d1 v))
      = .ok ⟨pack_lastaxis (.d1 (intMatVecMod2 A v)), some [A.length]⟩ := by
  have hrepack :
      packbits_axis0 (unpackbits_lastaxis (NDArr.d1 (packbitsRow v)) v.length)
        = NDArr.d1 (packbitsRow v) := by
    simp only [unpackbits_lastaxis, packbits_axis0]
    rw [take_unpackRow_packbitsRow v hvb]
  have hout :
      (A.map packbitsRow).map (fun ar =>
          xorReduce (unpackRow (List.zipWith (fun u v => u &&& v) ar (packbitsRow v))))
        = intMatVecMod2 A v := by
    rw [List.map_map]
    exact List.map_congr_left (fun r hr => by
      simp only [Function.comp_apply]
      exact vec_entry_eq r v ((hA r hr).trans hv.symm) (hAb r hr) hvb)
  have harg :
      packbits_axis0 (unpackbits_lastaxis (GF2BP_pack (NDArr.d1 v)).phys
          (lastDim ((GF2BP_pack (NDArr.d1 v)).ushape.getD [])))
        = NDArr.d1 (packbitsRow v) := by
    show packbits_axis0 (unpackbits_lastaxis (NDArr.d1 (packbitsRow v)) v.length) = _
    exact hrepack
  show matmul_checked (GF2BP_pack (NDArr.d2 A N))
      (packbits_axis0 (unpackbits_lastaxis (GF2BP_pack (NDArr.d1 v)).phys
        (lastDim ((GF2BP_pack (NDArr.d1 v)).ushape.getD [])))) = _
  rw [harg]
  have hc : lastDim (shapeOf (GF2BP_pack (NDArr.d2 A N)).phys)
      = headDim (shapeOf (NDArr.d1 (packbitsRow v))) := by
    show ceil8 N = (packbitsRow v).length
    rw [packbitsRow_length, hv]
  unfold matmul_checked
  rw [if_pos hc]
  change Except.ok (GF2BPArr.mk (pack_lastaxis (NDArr.d1 ((A.map packbitsRow).map (fun ar =>
      xorReduce (unpackRow (List.zipWith (fun u v => u &&& v) ar (packbitsRow v)))))))
      (some [(shapeOf (GF2BP_pack (NDArr.d2 A N)).phys).headD 0]))
    = Except.ok (GF2BPArr.mk (pack_lastaxis (NDArr.d1 (intMatVecMod2 A v))) (some [A.length]))
  rw [hout]
  simp [GF2BP_pack, pack_lastaxis, shapeOf]

/-- The packed matrix multiply, matrix case: `pack(A) @ pack(B)` succeeds and
returns the packed reference product with `_unpacked_shape = (M, P)`. -/
theorem matmul_core_mat (A : List (List Nat)) (N : Nat) (B : List (List Nat)) (P : Nat)
    (hA : ∀ r ∈ A, r.length = N) (hAb : ∀ r ∈ A, ∀ b ∈ r, b < 2)
    (hBN : B.length = N) (hB : ∀ r ∈ B, r.length = P) (hBb : ∀ r ∈ B, ∀ b ∈ r, b < 2) :
    matmul_core (GF2BP_pack (.d2 A N)) (GF2BP_pack (.d2 B P))
      = .ok ⟨pack_lastaxis (.d2 (intMatMatMod2 A B P) P), some [A.length, P]⟩ := by
  have hunp :
      unpackbits_lastaxis (pack_lastaxis (NDArr.d2 B P)) P = NDArr.d2 B P := by
    simp only [pack_lastaxis, unpackbits_lastaxis]
    rw [map_unpack_pack B P hB hBb]
  have hout :
      (A.map packbitsRow).map (fun ar =>
          (List.range P).map (fun i =>
            xorReduce ((List.zipWith (fun u v => u &&& v) ar
              (colI ((List.range (ceil8 B.length)).map (fun j =>
                (List.range P).map (fun i' => (packbitsRow (colI B i')).getD j 0))) i)).map popcount) % 2))
        = intMatMatMod2 A B P := by
    rw [List.map_map]
    exact List.map_congr_left (fun r hr => by
      simp only [Function.comp_apply]
      exact List.map_congr_left (fun i hi => by
        rw [colI_packbits_axis0 B P i (List.mem_range.mp hi)]
        exact mat_entry_eq r (colI B i)
          (by rw [hA r hr, colI_length, hBN])
          (hAb r hr) (colI_getD_mem_lt B hBb i)))
  have harg :
      packbits_axis0 (unpackbits_lastaxis (GF2BP_pack (NDArr.d2 B P)).phys
          (lastDim ((GF2BP_pack (NDArr.d2 B P)).ushape.getD [])))
        = NDArr.d2 ((List.range (ceil8 B.length)).map (fun j =>
            (List.range P).map (fun i' => (packbitsRow (colI B i')).getD j 0))) P := by
    show packbits_axis0 (unpackbits_lastaxis (pack_lastaxis (NDArr.d2 B P)) P) = _
    rw [hunp]
    rfl
  show matmul_checked (GF2BP_pack (NDArr.d2 A N))
      (packbits_axis0 (unpackbits_lastaxis (GF2BP_pack (NDArr.d2 B P)).phys
        (lastDim ((GF2BP_pack (NDArr.d2 B P)).ushape.getD [])))) = _
  rw [harg]
  have hc : lastDim (shapeOf (GF2BP_pack (NDArr.d2 A N)).phys)
      = headDim (shapeOf (NDArr.d2 ((List.range (ceil8 B.length)).map (fun j =>
          (List.range P).map (fun i' => (packbitsRow (colI B i')).getD j 0))) P)) := by
    show ceil8 N = ((List.range (ceil8 B.length)).map (fun j =>
        (List.range P).map (fun i' => (packbitsRow (colI B i')).getD j 0))).length
    rw [List.length_map, List.length_range, hBN]
  unfold matmul_checked
  rw [if_pos hc]
  change Except.ok (GF2BPArr.mk (pack_lastaxis (NDArr.d2 ((A.map packbitsRow).map (fun ar =>
      (List.range P).map (fun i =>
        xorReduce ((List.zipWith (fun u v => u &&& v) ar
          (colI ((List.range (ceil8 B.length)).map (fun j =>
            (List.range P).map (fun i' => (packbitsRow (colI B i')).getD j 0))) i)).map popcount) % 2))) P))
      (some [(shapeOf (GF2BP_pack (NDArr.d2 A N)).phys).headD 0, P]))
    = Except.ok (GF2BPArr.mk (pack_lastaxis (NDArr.d2 (intMatMatMod2 A B P) P)) (some [A.length, P]))
  rw [hout]
  simp [GF2BP_pack, pack_lastaxis, shapeOf]

/-! ## Lemmas: unpacking a packed result -/

theorem astype_pack_d1 (l : List Nat) (n : Nat) (hn : l.length = n) (hb : ∀ b ∈ l, b < 2) :
    GF2BP_astype_GF2 ⟨pack_lastaxis (.d1 l), some [n]⟩ = .d1 l := by
  show NDArr.d1 ((unpackRow (packbitsRow l)).take (lastDim [n])) = _
  rw [lastDim_single, ← hn, take_unpackRow_packbitsRow l hb]

theorem astype_pack_d2 (rows : List (List Nat)) (m p : Nat)
    (hr : ∀ r ∈ rows, r.length = p) (hb : ∀ r ∈ rows, ∀ b ∈ r, b < 2) :
    GF2BP_astype_GF2 ⟨pack_lastaxis (.d2 rows p), some [m, p]⟩ = .d2 rows p := by
  show NDArr.d2 ((rows.map packbitsRow).map (fun r => (unpackRow r).take (lastDim [m, p])))
      (lastDim [m, p]) = _
  rw [lastDim_pair, map_unpack_pack rows p hr hb]

theorem intMatVecMod2_length (A : List (List Nat)) (v : List Nat) :
    (intMatVecMod2 A v).length = A.length := by
  simp [intMatVecMod2]

theorem intMatVecMod2_mem_lt (A : List (List Nat)) (v : List Nat) :
    ∀ b ∈ intMatVecMod2 A v, b < 2 := by
  intro b hb
  simp only [intMatVecMod2, List.mem_map] at hb
  obtain ⟨r, _, he⟩ := hb
  omega

theorem intMatMatMod2_row_length (A B : List (List Nat)) (p : Nat) :
    ∀ r ∈ intMatMatMod2 A B p, r.length = p := by
  intro r hr
  simp only [intMatMatMod2, List.mem_map] at hr
  obtain ⟨x, _, he⟩ := hr
  simp [← he]

theorem intMatMatMod2_mem_lt (A B : List (List Nat)) (p : Nat) :
    ∀ r ∈ intMatMatMod2 A B p, ∀ b ∈ r, b < 2 := by
  intro r hr b hb
  simp only [intMatMatMod2, List.mem_map] at hr
  obtain ⟨x, _, he⟩ := hr
  rw [← he] at hb
  simp only [List.mem_map] at hb
  obtain ⟨i, _, hi⟩ := hb
  omega

/-! ## Claim theorems -/

/-- C1: for all M, N, P ≥ 0 (including N = 0) and every 0/1 matrix `A` of
logical shape `[M, N]` and 0/1 operand `B` of logical shape `[N]` or `[N, P]`,
the packed matrix multiply applied to `pack(A)` and `pack(B)` succeeds and
produces a packed result, carrying the correct logical shape, that unpacks to
exactly the conventional integer matrix product of `A` and `B` reduced modulo
2 — so the vector-case XOR-reduce strategy and the matrix-case
popcount-mod-2 strategy both agree exactly with that reference result. -/
theorem C1_packed_matmul_correct (A : List (List Nat)) (N : Nat)
    (hA : ∀ r ∈ A, r.length = N) (hAb : ∀ r ∈ A, ∀ b ∈ r, b < 2) :
    (∀ v : List Nat, v.length = N → (∀ b ∈ v, b < 2) →
      (matmul_ufunc_bitpacked (.packed (GF2BP_pack (.d2 A N)))
          (.packed (GF2BP_pack (.d1 v)))).map (fun r => (GF2BP_astype_GF2 r, r.ushape))
        = .ok (.d1 (intMatVecMod2 A v), some [A.length])) ∧
    (∀ (B : List (List Nat)) (P : Nat), B.length = N → (∀ r ∈ B, r.length = P) →
      (∀ r ∈ B, ∀ b ∈ r, b < 2) →
      (matmul_ufunc_bitpacked (.packed (GF2BP_pack (.d2 A N)))
          (.packed (GF2BP_pack (.d2 B P)))).map (fun r => (GF2BP_astype_GF2 r, r.ushape))
        = .ok (.d2 (intMatMatMod2 A B P) P, some [A.length, P])) := by
  constructor
  · intro v hv hvb
    show (matmul_core (GF2BP_pack (.d2 A N)) (GF2BP_pack (.d1 v))).map
        (fun r => (GF2BP_astype_GF2 r, r.ushape)) = _
    rw [matmul_core_vec A N v hA hAb hv hvb]
    show Except.ok (GF2BP_astype_GF2 ⟨pack_lastaxis (.d1 (intMatVecMod2 A v)), some [A.length]⟩,
      some [A.length]) = _
    rw [astype_pack_d1 (intMatVecMod2 A v) A.length (intMatVecMod2_length A v)
      (intMatVecMod2_mem_lt A v)]
  · intro B P hBN hB hBb
    show (matmul_core (GF2BP_pack (.d2 A N)) (GF2BP_pack (.d2 B P))).map
        (fun r => (GF2BP_astype_GF2 r, r.ushape)) = _
    rw [matmul_core_mat A N B P hA hAb hBN hB hBb]
    show Except.ok (GF2BP_astype_GF2 ⟨pack_lastaxis (.d2 (intMatMatMod2 A B P) P),
      some [A.length, P]⟩, some [A.length, P]) = _
    rw [astype_pack_d2 (intMatMatMod2 A B P) A.length P
      (intMatMatMod2_row_length A B P) (intMatMatMod2_mem_lt A B P)]

/-- C1 witness: the spec's literal instance `A = [[1,0,1],[0,1,1]]`,
`v = [1,1,0]` yields `[1,1]`, and a concrete 3×2 matrix case. -/
theorem C1_packed_matmul_correct_witness :
    (matmul_ufunc_bitpacked (.packed (GF2BP_pack (.d2 [[1,0,1],[0,1,1]] 3)))
        (.packed (GF2BP_pack (.d1 [1,1,0])))).map (fun r => (GF2BP_astype_GF2 r, r.ushape))
      = .ok (.d1 [1,1], some [2]) ∧
    (matmul_ufunc_bitpacked (.packed (GF2BP_pack (.d2 [[1,0,1],[0,1,1]] 3)))
        (.packed (GF2BP_pack (.d2 [[1,1],[0,1],[1,0]] 2)))).map (fun r => (GF2BP_astype_GF2 r, r.ushape))
      = .ok (.d2 [[0,1],[1,1]] 2, some [2,2]) := by
  have h := C1_packed_matmul_correct [[1,0,1],[0,1,1]] 3 (by decide) (by decide)
  constructor
  · rw [h.1 [1,1,0] (by decide) (by decide)]
    rfl
  · rw [h.2 [[1,1],[0,1],[1,0]] 2 (by decide) (by decide) (by decide)]
    rfl

/-- C2: packing a 0/1 array of any shape and then unpacking it returns the
array unchanged (the unpack takes exactly `logical_shape[-1]` elements per
last-axis row, discarding padding), and `pack (unpack (pack y)) = pack y`.
Rank-1 and rank-2 arrays cover every shape, since packing and unpacking act
independently on last-axis rows. -/
theorem C2_pack_unpack_roundtrip :
    (∀ l : List Nat, (∀ b ∈ l, b < 2) →
      GF2BP_astype_GF2 (GF2BP_pack (.d1 l)) = .d1 l ∧
      GF2BP_pack (GF2BP_astype_GF2 (GF2BP_pack (.d1 l))) = GF2BP_pack (.d1 l)) ∧
    (∀ (rows : List (List Nat)) (n : Nat), (∀ r ∈ rows, r.length = n) →
      (∀ r ∈ rows, ∀ b ∈ r, b < 2) →
      GF2BP_astype_GF2 (GF2BP_pack (.d2 rows n)) = .d2 rows n ∧
      GF2BP_pack (GF2BP_astype_GF2 (GF2BP_pack (.d2 rows n))) = GF2BP_pack (.d2 rows n)) := by
  constructor
  · intro l hb
    have h1 : GF2BP_astype_GF2 (GF2BP_pack (.d1 l)) = .d1 l :=
      astype_pack_d1 l l.length rfl hb
    exact ⟨h1, by rw [h1]⟩
  · intro rows n hr hb
    have h1 : GF2BP_astype_GF2 (GF2BP_pack (.d2 rows n)) = .d2 rows n :=
      astype_pack_d2 rows rows.length n hr hb
    exact ⟨h1, by rw [h1]⟩

/-- C2 witness: the spec's literal instance — packing `[1,0,1,1]` and
unpacking returns `[1,0,1,1]` unchanged — plus a rank-2 instance. -/
theorem C2_pack_unpack_roundtrip_witness :
    (GF2BP_astype_GF2 (GF2BP_pack (.d1 [1,0,1,1])) = .d1 [1,0,1,1] ∧
      GF2BP_pack (GF2BP_astype_GF2 (GF2BP_pack (.d1 [1,0,1,1]))) = GF2BP_pack (.d1 [1,0,1,1])) ∧
    (GF2BP_astype_GF2 (GF2BP_pack (.d2 [[1,0,1],[0,1,1]] 3)) = .d2 [[1,0,1],[0,1,1]] 3) :=
  ⟨C2_pack_unpack_roundtrip.1 [1,0,1,1] (by decide),
   (C2_pack_unpack_roundtrip.2 [[1,0,1],[0,1,1]] 3 (by decide) (by decide)).1⟩

/-- C3 (evaluation of the code at the failing input): negating — and likewise
taking the square root of — a packed array of logical shape `[2, 3]` returns a
result that carries no logical-shape descriptor at all (`none`), rather than
`[2, 3]`: lines 204 and 211 install the plain `negative_ufunc` and `sqrt`
dispatchers, which never re-attach `_unpacked_shape`, and only add, subtract,
multiply and divide have `*_bitpacked` wrappers (lines 203, 205, 206, 208); a
binary wrapper moreover always copies `inputs[0]._unpacked_shape` (line 113),
never a broadcast-combined shape. -/
theorem C3_shape_metadata_dropped :
    (negative_ufunc_bp_call (GF2BP_pack (.d2 [[1,0,1],[0,1,1]] 3))).ushape = none ∧
    (sqrt_ufunc_bp_call (GF2BP_pack (.d2 [[1,0,1],[0,1,1]] 3))).ushape = none ∧
    (GF2BP_pack (.d2 [[1,0,1],[0,1,1]] 3)).ushape = some [2, 3] ∧
    (add_ufunc_bitpacked_call (GF2BP_pack (.d2 [[1,0,1],[0,1,1]] 3))
        (GF2BP_pack (.d2 [[1,1,1],[0,0,0]] 3))).ushape = some [2, 3] :=
  ⟨rfl, rfl, rfl, rfl⟩

/-- C4 (evaluation of the code at the failing input): multiplying a packed
2×3 matrix by a packed length-4 vector does not fail at all: the assert on
line 172 compares the physical packed shapes (one byte against one byte), so
the call succeeds and returns a packed length-2 result unpacking to `[1, 1]`,
instead of raising a dimension-mismatch error as the claim requires. -/
theorem C4_mismatch_not_detected :
    (matmul_ufunc_bitpacked (.packed (GF2BP_pack (.d2 [[1,0,1],[0,1,1]] 3)))
        (.packed (GF2BP_pack (.d1 [1,1,0,1])))).map (fun r => (GF2BP_astype_GF2 r, r.ushape))
      = .ok (.d1 [1,1], some [2]) := rfl

theorem zipWith_eq_of_mem {f g : Nat → Nat → Nat} :
    ∀ (x y : List Nat), (∀ u ∈ x, ∀ v ∈ y, f u v = g u v) →
      List.zipWith f x y = List.zipWith g x y := by
  intro x
  induction x with
  | nil => intro y h; simp
  | cons a x ih =>
      intro y h
      cases y with
      | nil => simp
      | cons c y =>
          rw [List.zipWith_cons_cons, List.zipWith_cons_cons, h a (by simp) c (by simp),
            ih y (fun u hu v hv => h u (by simp [hu]) v (by simp [hv]))]

/-- C5: for all `a, b` in `{0,1}` the total scalar operations satisfy
`add(a,b) = a XOR b = (a+b) mod 2`, `subtract(a,b) = a XOR b = (a+b) mod 2`,
`multiply(a,b) = a AND b = a*b`, `negate(a) = a` and `sqrt(a) = a` (a genuine
square root), none of them failing, and the same rules hold elementwise on
arrays. -/
theorem C5_basic_ops :
    (∀ a b : Nat, a < 2 → b < 2 →
      add_gf2 a b = (a + b) % 2 ∧
      subtract_gf2 a b = (a + b) % 2 ∧
      multiply_gf2 a b = a * b ∧
      negative_gf2 a = a ∧
      sqrt_gf2 a = a ∧
      multiply_gf2 (sqrt_gf2 a) (sqrt_gf2 a) = a) ∧
    (∀ x y : List Nat, (∀ c ∈ x, c < 2) → (∀ c ∈ y, c < 2) →
      List.zipWith add_gf2 x y = List.zipWith (fun u v => (u + v) % 2) x y ∧
      List.zipWith multiply_gf2 x y = List.zipWith (fun u v => u * v) x y ∧
      x.map negative_gf2 = x ∧
      x.map sqrt_gf2 = x) := by
  have hsc : ∀ a b : Nat, a < 2 → b < 2 →
      add_gf2 a b = (a + b) % 2 ∧
      subtract_gf2 a b = (a + b) % 2 ∧
      multiply_gf2 a b = a * b ∧
      negative_gf2 a = a ∧
      sqrt_gf2 a = a ∧
      multiply_gf2 (sqrt_gf2 a) (sqrt_gf2 a) = a := by
    intro a b ha hb
    interval_cases a <;> interval_cases b <;> refine ⟨?_, ?_, ?_, ?_, ?_, ?_⟩ <;> rfl
  refine ⟨hsc, ?_⟩
  intro x y hx hy
  refine ⟨?_, ?_, ?_, ?_⟩
  · exact zipWith_eq_of_mem x y (fun u hu v hv => (hsc u v (hx u hu) (hy v hv)).1)
  · exact zipWith_eq_of_mem x y (fun u hu v hv => (hsc u v (hx u hu) (hy v hv)).2.2.1)
  · exact List.map_id' x
  · exact List.map_id' x

/-- C5 witness: a concrete instantiation at `a = 1`, `b = 1` and the arrays
`[1,0]`, `[1,1]`. -/
theorem C5_basic_ops_witness :
    (add_gf2 1 1 = (1 + 1) % 2 ∧ subtract_gf2 1 1 = (1 + 1) % 2 ∧
      multiply_gf2 1 1 = 1 * 1 ∧ negative_gf2 1 = 1 ∧ sqrt_gf2 1 = 1 ∧
      multiply_gf2 (sqrt_gf2 1) (sqrt_gf2 1) = 1) ∧
    List.zipWith add_gf2 [1,0] [1,1] = List.zipWith (fun u v => (u + v) % 2) [1,0] [1,1] :=
  ⟨C5_basic_ops.1 1 1 (by decide) (by decide),
   (C5_basic_ops.2 [1,0] [1,1] (by decide) (by decide)).1⟩

/-- C6: `reciprocal` returns 1 on 1 and fails with `DivisionByZero` on 0;
`divide(a, b)` returns `a AND b` (which is `a`) when `b = 1` and fails with
`DivisionByZero` when `b = 0`; `power(a, b)` returns 1 when `b = 0`, returns
`a` when `b ≠ 0` and (`a ≠ 0` or `b > 0`), and fails with `DivisionByZero`
exactly when `a = 0` and `b < 0`. -/
theorem C6_division_ops (a bn : Nat) (bi : Int) (ha : a < 2) (hbn : bn < 2) :
    (a = 1 → reciprocal_gf2 a = .ok 1) ∧
    (a = 0 → reciprocal_gf2 a = .error .DivisionByZero) ∧
    (bn = 1 → divide_gf2 a bn = .ok (a &&& bn) ∧ a &&& bn = a) ∧
    (bn = 0 → divide_gf2 a bn = .error .DivisionByZero) ∧
    (bi = 0 → power_gf2 a bi = .ok 1) ∧
    (bi ≠ 0 → (a ≠ 0 ∨ 0 < bi) → power_gf2 a bi = .ok a) ∧
    (power_gf2 a bi = .error .DivisionByZero ↔ a = 0 ∧ bi < 0) := by
  refine ⟨?_, ?_, ?_, ?_, ?_, ?_, ?_⟩
  · intro h; subst h; rfl
  · intro h; subst h; rfl
  · intro h; subst h
    refine ⟨by simp [divide_gf2], ?_⟩
    interval_cases a <;> rfl
  · intro h; subst h; rfl
  · intro h; subst h
    unfold power_gf2
    simp
  · intro h1 h2
    unfold power_gf2
    rw [if_neg (by omega), if_neg h1]
  · unfold power_gf2
    by_cases h : a = 0 ∧ bi < 0
    · simp [h]
    · rw [if_neg h]
      by_cases h0 : bi = 0 <;> simp [h0, h]

/-- C6 witness: concrete instantiations at `a = 1`, `bn = 1`, `bi = -1`. -/
theorem C6_division_ops_witness :
    reciprocal_gf2 1 = .ok 1 ∧ (divide_gf2 1 1 = .ok (1 &&& 1) ∧ 1 &&& 1 = 1) ∧
      (power_gf2 1 (-1) = .error .DivisionByZero ↔ 1 = 0 ∧ (-1 : Int) < 0) :=
  ⟨(C6_division_ops 1 1 (-1) (by decide) (by decide)).1 rfl,
   (C6_division_ops 1 1 (-1) (by decide) (by decide)).2.2.1 rfl,
   (C6_division_ops 1 1 (-1) (by decide) (by decide)).2.2.2.2.2.2⟩

/-- C7: `log(a, b)` returns 0 when `a ≠ 0` and `b = 1`; it fails with
`UndefinedLogarithm` whenever `a = 0` (for any `b`, the zero check coming
first); and it fails with `InvalidGenerator` whenever `a ≠ 0` and `b ≠ 1`. -/
theorem C7_log (a b : Nat) :
    (a ≠ 0 → b = 1 → log_gf2 a b = .ok 0) ∧
    (a = 0 → log_gf2 a b = .error .UndefinedLogarithm) ∧
    (a ≠ 0 → b ≠ 1 → log_gf2 a b = .error .InvalidGenerator) := by
  refine ⟨?_, ?_, ?_⟩
  · intro h1 h2
    unfold log_gf2
    rw [if_neg h1, if_neg (by simpa using h2)]
  · intro h; subst h; rfl
  · intro h1 h2
    unfold log_gf2
    rw [if_neg h1, if_pos (by simpa using h2)]

/-- C7 witness: `log(1,1) = 0`, `log(0,0)` undefined, `log(1,0)` invalid
generator. -/
theorem C7_log_witness :
    log_gf2 1 1 = .ok 0 ∧ log_gf2 0 0 = .error .UndefinedLogarithm ∧
      log_gf2 1 0 = .error .InvalidGenerator :=
  ⟨(C7_log 1 1).1 (by decide) rfl, (C7_log 0 0).2.1 rfl,
   (C7_log 1 0).2.2 (by decide) (by decide)⟩

/-- C8: casting a packed array with `astype` succeeds only to the unpacked
type `GF2` (performing unpack-and-truncate); for every other target the cast
fails with the explicit not-implemented condition `UnsupportedCast` instead of
reinterpreting or converting the packed storage. -/
theorem C8_astype_packed (r : GF2BPArr) (t : GFType) :
    GF2BP_astype r .GF2T = .ok (GF2BP_astype_GF2 r) ∧
    (t ≠ .GF2T → GF2BP_astype r t = .error .UnsupportedCast) := by
  refine ⟨rfl, ?_⟩
  intro h
  cases t with
  | GF2T => exact absurd rfl h
  | GF2BPT => rfl
  | OtherT => rfl

/-- C8 witness: a concrete packed array cast to `GF2` (unpacks) and to the
packed type itself (unsupported). -/
theorem C8_astype_packed_witness :
    GF2BP_astype (GF2BP_pack (.d1 [1,0])) .GF2T
        = .ok (GF2BP_astype_GF2 (GF2BP_pack (.d1 [1,0]))) ∧
      GF2BP_astype (GF2BP_pack (.d1 [1,0])) .GF2BPT = .error .UnsupportedCast :=
  ⟨(C8_astype_packed (GF2BP_pack (.d1 [1,0])) .GF2BPT).1,
   (C8_astype_packed (GF2BP_pack (.d1 [1,0])) .GF2BPT).2 (by decide)⟩

/-- C9 counterexample: the claim asserts the packed type can be constructed
directly from nested sequences, failing only with `ValidationError` on bad
elements — but `GF2BP.__new__` raises `NotImplementedError` for every
non-ndarray input (lines 340-344): construction from the nested list
`[1,0,1,1]` fails even though all elements lie in `{0,1}`, and construction
from the nested list `[1,2]` fails with `NotImplementedError`, not
`ValidationError`. -/
theorem C9_construction_validates_counterexample :
    GF2BP_new (.nested (.d1 [1,0,1,1])) = .error .NotImplementedErr ∧
    GF2BP_new (.nested (.d1 [1,2])) = .error .NotImplementedErr ∧
    (Except.error GFErr.NotImplementedErr : Except GFErr GF2BPArr)
      ≠ .error .ValidationError :=
  ⟨rfl, rfl, by simp⟩

/-- C9 (amended): the unpacked (`GF2`) constructor accepts nested sequences
and ndarrays alike, and the packed (`GF2BP`) constructor accepts ndarrays;
in both, any element outside `{0,1}` makes construction fail with
`ValidationError` and valid values are stored unchanged (never clamped) —
but constructing the packed type from a nested Python sequence always raises
`NotImplementedError` (lines 340-344), directing users to construct `GF2` and
cast with `.astype(GF2BP)` instead. -/
theorem C9_construction_validates (x : List Nat) (rows : List (List Nat)) (n : Nat)
    (y : NDArr) :
    ((∀ b ∈ x, b < 2) →
      GF2_new (.nested (.d1 x)) = .ok (.d1 x) ∧
      GF2BP_new (.ndarray (.d1 x)) = .ok (GF2BP_pack (.d1 x))) ∧
    ((∃ b ∈ x, ¬ b < 2) →
      GF2_new (.nested (.d1 x)) = .error .ValidationError ∧
      GF2BP_new (.ndarray (.d1 x)) = .error .ValidationError) ∧
    ((∀ r ∈ rows, ∀ b ∈ r, b < 2) →
      GF2_new (.nested (.d2 rows n)) = .ok (.d2 rows n) ∧
      GF2BP_new (.ndarray (.d2 rows n)) = .ok (GF2BP_pack (.d2 rows n))) ∧
    ((∃ r ∈ rows, ∃ b ∈ r, ¬ b < 2) →
      GF2_new (.nested (.d2 rows n)) = .error .ValidationError ∧
      GF2BP_new (.ndarray (.d2 rows n)) = .error .ValidationError) ∧
    GF2BP_new (.nested y) = .error .NotImplementedErr := by
  refine ⟨?_, ?_, ?_, ?_, rfl⟩
  · intro h
    have hall : x.all (fun b => decide (b < 2)) = true := by
      rw [List.all_eq_true]; intro b hb; exact decide_eq_true (h b hb)
    constructor <;> simp [GF2_new, GF2BP_new, verifyND, verifyList, hall, Except.map]
  · intro h
    have hall : ¬ x.all (fun b => decide (b < 2)) = true := by
      rw [List.all_eq_true]
      intro hc
      obtain ⟨b, hb, hb2⟩ := h
      exact hb2 (of_decide_eq_true (hc b hb))
    constructor <;> simp [GF2_new, GF2BP_new, verifyND, verifyList, hall, Except.map]
  · intro h
    have hall : rows.all (fun r => r.all (fun b => decide (b < 2))) = true := by
      rw [List.all_eq_true]
      intro r hr
      rw [List.all_eq_true]
      intro b hb
      exact decide_eq_true (h r hr b hb)
    constructor <;> simp [GF2_new, GF2BP_new, verifyND, verifyList, hall, Except.map]
  · intro h
    have hall : ¬ rows.all (fun r => r.all (fun b => decide (b < 2))) = true := by
      rw [List.all_eq_true]
      intro hc
      obtain ⟨r, hr, b, hb, hb2⟩ := h
      have := hc r hr
      rw [List.all_eq_true] at this
      exact hb2 (of_decide_eq_true (this b hb))
    constructor <;> simp [GF2_new, GF2BP_new, verifyND, verifyList, hall, Except.map]

/-- C9 witness: the nested list `[1,0,1,1]` constructs a `GF2` array
unchanged while the same values as an ndarray construct a `GF2BP` array;
`[1,2]` fails validation in both constructors; and a nested input to the
packed constructor raises `NotImplementedError`. -/
theorem C9_construction_validates_witness :
    (GF2_new (.nested (.d1 [1,0,1,1])) = .ok (.d1 [1,0,1,1]) ∧
      GF2BP_new (.ndarray (.d1 [1,0,1,1])) = .ok (GF2BP_pack (.d1 [1,0,1,1]))) ∧
    (GF2_new (.nested (.d1 [1,2])) = .error .ValidationError ∧
      GF2BP_new (.ndarray (.d1 [1,2])) = .error .ValidationError) ∧
    (GF2_new (.nested (.d2 [[1,3]] 2)) = .error .ValidationError ∧
      GF2BP_new (.ndarray (.d2 [[1,3]] 2)) = .error .ValidationError) ∧
    GF2BP_new (.nested (.d1 [1,0])) = .error .NotImplementedErr :=
  ⟨(C9_construction_validates [1,0,1,1] [[1,3]] 2 (.d1 [1,0])).1 (by decide),
   (C9_construction_validates [1,2] [[1,3]] 2 (.d1 [1,0])).2.1 (by decide),
   (C9_construction_validates [1,2] [[1,3]] 2 (.d1 [1,0])).2.2.2.1 (by decide),
   (C9_construction_validates [1,2] [[1,3]] 2 (.d1 [1,0])).2.2.2.2⟩

/-- C10: the packed matrix multiply requires both operands to already be
packed (`GF2BP`) arrays — whenever either operand is not packed, the call
fails with the assertion on line 158 and never implicitly converts the
unpacked operand. -/
theorem C10_matmul_requires_packed (ia ib : MMOperand)
    (h : (∃ x, ia = .unpacked x) ∨ (∃ x, ib = .unpacked x)) :
    matmul_ufunc_bitpacked ia ib = .error .AssertionFailed := by
  cases ia with
  | unpacked x => cases ib <;> rfl
  | packed a =>
      cases ib with
      | unpacked x => rfl
      | packed b =>
          rcases h with ⟨x, hx⟩ | ⟨x, hx⟩ <;> simp at hx

/-- C10 witness: an unpacked first operand against a packed second operand. -/
theorem C10_matmul_requires_packed_witness :
    matmul_ufunc_bitpacked (.unpacked (.d1 [1,0])) (.packed (GF2BP_pack (.d1 [1,0])))
      = .error .AssertionFailed :=
  C10_matmul_requires_packed (.unpacked (.d1 [1,0])) (.packed (GF2BP_pack (.d1 [1,0])))
    (Or.inl ⟨.d1 [1,0], rfl⟩)

end GF2Spec
